import Mathlib

/-!
Shallow embedding of the `tf-serve` inference pipeline
(`src/tf-serve/src/lib.rs`) from the `nubificus/tf-serverless` repository.

Modelling conventions:
* Rust `f32` values are modelled by `F32`: a finite value carries an exact
  rational (the pipeline never performs float arithmetic on model outputs,
  it only compares them), plus the non-finite values `posInf`, `negInf`,
  `nan`.  `partial_cmp` on `f32` is modelled faithfully: any comparison
  involving a NaN is `none`, all other comparisons are total.
* `tensorflow::Result<T>` (`Result<T, Status>`) is modelled by `RResult`,
  with a third constructor `panicked` for the `unwrap`/`expect` panics the
  source code can reach.
* External crates (the `image` crate, `reqwest`, the TensorFlow session)
  are not part of this repository; they are modelled by their documented
  interfaces: a record of functions (`ImageLib`), a network oracle passed
  as an argument, and a session function stored in the classifier state.
* `Timer` measures wall-clock time; each timed stage's measured duration
  (in milliseconds, as returned by `Timer::duration`) is passed to the
  corresponding pipeline function as an explicit `Int` parameter.
-/

/-- Rust `tensorflow::Code` values used by the library. -/
inductive Code where
  | notFound
  | invalidArgument
  | dataLoss
  | outOfRange
  | internal
  | unknown
deriving DecidableEq, Repr

/-- A `tensorflow::Status`: an error code plus the message installed with
`Status::new_set_lossy`. -/
structure Status where
  code : Code
  msg : String
deriving DecidableEq, Repr

/-- Outcome of a Rust function returning `tensorflow::Result<α>`:
`ok`, an error `Status`, or a panic (`unwrap`/`expect` failure). -/
inductive RResult (α : Type) where
  | ok : α → RResult α
  | err : Status → RResult α
  | panicked : RResult α
deriving DecidableEq, Repr

/-- Model of an `f32` value: finite values carry an exact rational
(the pipeline only compares model outputs, never computes with them),
plus the IEEE non-finite values. -/
inductive F32 where
  | finite : ℚ → F32
  | posInf : F32
  | negInf : F32
  | nan : F32
deriving DecidableEq, Repr

/-- Three-way comparison of rationals. -/
def qcmp (a b : ℚ) : Ordering :=
  if a < b then .lt else if b < a then .gt else .eq

/-- Model of `f32::partial_cmp`: `none` whenever a NaN is involved, otherwise the
IEEE total comparison of the two values. -/
def F32.partialCmp : F32 → F32 → Option Ordering
  | .nan, _ => none
  | _, .nan => none
  | .posInf, .posInf => some .eq
  | .posInf, _ => some .gt
  | _, .posInf => some .lt
  | .negInf, .negInf => some .eq
  | .negInf, _ => some .lt
  | _, .negInf => some .gt
  | .finite a, .finite b => some (qcmp a b)

/-- The comparator used in `get_tag`:
`a.partial_cmp(b).unwrap_or(std::cmp::Ordering::Equal)`. -/
def cmpF (a b : F32) : Ordering :=
  (F32.partialCmp a b).getD .eq

/-- Whether an `F32` is a finite value. -/
def F32.isFinite : F32 → Bool
  | .finite _ => true
  | _ => false

/-- Numeric value of a finite `F32` (junk value `0` on non-finite ones). -/
def F32.val : F32 → ℚ
  | .finite q => q
  | _ => 0

/-- Rust's `Iterator::max_by`: a left fold that keeps the accumulator only
when it compares strictly greater, so the LAST of several equal maxima is
returned (`core::cmp::max_by` returns its second argument on `Equal`). -/
def rustMaxBy {α : Type} (cmp : α → α → Ordering) : List α → Option α
  | [] => none
  | x :: xs => some (xs.foldl (fun m y => if cmp m y = .gt then m else y) x)

/-- The comparator of `get_tag` lifted to enumerated pairs:
`|(_, a), (_, b)| a.partial_cmp(b).unwrap_or(Equal)`. -/
def pairCmp (p q : Nat × F32) : Ordering := cmpF p.2 q.2

/-- One fold step of `max_by` with `pairCmp` (keep the accumulator only if
strictly greater, otherwise move to the new element). -/
def stepMax (m y : Nat × F32) : Nat × F32 :=
  if pairCmp m y = .gt then m else y

/-- An RGB8 pixel buffer of the `image` crate (`RgbImage`), modelled by its
dimensions and pixel function; every channel value is a byte. -/
structure RgbImage where
  width : Nat
  height : Nat
  pixel : Nat → Nat → Nat → Nat
  pixel_lt : ∀ y x c, pixel y x c < 256

/-- A decoded `image::DynamicImage`; `to_rgb` yields its RGB8 buffer. -/
structure DynamicImage where
  rgb : RgbImage

/-- Model of `DynamicImage::to_rgb`. -/
def DynamicImage.to_rgb (d : DynamicImage) : RgbImage := d.rgb

/-- The `image::imageops::FilterType` enumeration. -/
inductive FilterType where
  | Nearest
  | Triangle
  | CatmullRom
  | Gaussian
  | Lanczos3
deriving DecidableEq, Repr

/-- Model of `ImageBuffer::into_raw` for an RGB8 buffer: the raw container is
row-major, channel-last (documented layout of the `image` crate): flat
index `k` holds channel `k % 3` of the pixel at row `k / (width*3)`,
column `(k % (width*3)) / 3`. -/
def RgbImage.into_raw (img : RgbImage) : List Nat :=
  (List.range (img.height * img.width * 3)).map
    (fun k => img.pixel (k / (img.width * 3)) ((k % (img.width * 3)) / 3) (k % 3))

/-- Interface of the external `image` crate as used by the pipeline:
`load_from_memory` (with auto-detected format; `none` on undecodable
bytes) and `imageops::resize`, which always returns a buffer of the
requested dimensions. -/
structure ImageLib where
  load_from_memory : List Nat → Option DynamicImage
  resize : RgbImage → Nat → Nat → FilterType → RgbImage
  resize_width : ∀ i w h f, (resize i w h f).width = w
  resize_height : ∀ i w h f, (resize i w h f).height = h

/-- State of the `ImageClassifier` struct: the graph (modelled by whether it contains the
two operations `run` looks up), the session (modelled as the function the
TensorFlow runtime computes, which may fail with a `Status`), and the tags
path, modelled together with the content of the file system at that path:
`none` if `File::open` fails, otherwise the list of results of reading
each line (`none` for a line on which `BufRead::lines` yields an `Err`). -/
structure ImageClassifier where
  hasInputOp : Bool
  hasOutputOp : Bool
  sessionRun : List F32 → Except Status (List F32)
  tagsFile : Option (List (Option String))

/-- The `Classification` struct; timing fields are milliseconds.
`Default` gives the empty tag, probability `0.0` and zero durations. -/
structure Classification where
  tag : String
  probability : F32
  time_url_fetch : Int
  time_image_load : Int
  time_image_resize : Int
  time_session_run : Int
deriving DecidableEq, Repr

/-- Translation of `ImageClassifier::get_tag`: open the tags file (error `NotFound` if it
cannot be opened), pick the enumerated maximum of the tensor with
`max_by(partial_cmp.unwrap_or(Equal)).unwrap()` (panics on an empty
tensor), then `tags.nth(best.0).unwrap().unwrap()` (panics if the line
does not exist or fails to read). -/
def get_tag (c : ImageClassifier) (tensor : List F32) : RResult Classification :=
  match c.tagsFile with
  | none => .err ⟨.notFound, "Could not open tags file"⟩
  | some lines =>
    match rustMaxBy pairCmp tensor.enum with
    | none => .panicked
    | some best =>
      match lines.get? best.1 with
      | none => .panicked
      | some none => .panicked
      | some (some tag) => .ok ⟨tag, best.2, 0, 0, 0, 0⟩

/-- The tensor dimensions `run` requests: `&[1, 224, 224, 3]`. -/
def tfDims : List Nat := [1, 224, 224, 3]

/-- Model of `Tensor::new(&[1,224,224,3]).with_values(&image)`: succeeds exactly
when the value slice has as many elements as the dimensions demand. -/
def tensorNew (image : List F32) : Option (List F32) :=
  if image.length = tfDims.prod then some image else none

/-- Translation of `ImageClassifier::run`: build the input tensor (`expect "Bad image
size"` panics on a length mismatch), look up the graph operations
`serving_default_input_1` and `StatefulPartitionedCall` (error if absent),
run the session, then `get_tag` on the output; on success the measured
session duration is stored in `time_session_run`. -/
def run (c : ImageClassifier) (image : List F32) (dRun : Int) : RResult Classification :=
  match tensorNew image with
  | none => .panicked
  | some input =>
    if c.hasInputOp = false then
      .err ⟨.invalidArgument, "Operation not found: serving_default_input_1"⟩
    else if c.hasOutputOp = false then
      .err ⟨.invalidArgument, "Operation not found: StatefulPartitionedCall"⟩
    else
      match c.sessionRun input with
      | .error s => .err s
      | .ok output =>
        match get_tag c output with
        | .ok cl => .ok { cl with time_session_run := dRun }
        | .err s => .err s
        | .panicked => .panicked

/-- The preprocessing performed inside `ImageClassifier::classify`:
`to_rgb`, `imageops::resize(_, 224, 224, FilterType::Triangle)`, then
`into_raw` with every byte mapped through `x as f32 / 255f32` (the
division is exact in this model). -/
def preprocess_tensor (lib : ImageLib) (image : DynamicImage) : List F32 :=
  ((lib.resize image.to_rgb 224 224 .Triangle).into_raw).map
    (fun (b : Nat) => F32.finite ((b : ℚ) / 255))

/-- Translation of `ImageClassifier::classify`: preprocess, `run`, and on success store
the measured resize duration in `time_image_resize`. -/
def classify (lib : ImageLib) (c : ImageClassifier) (image : DynamicImage)
    (dResize dRun : Int) : RResult Classification :=
  match run c (preprocess_tensor lib image) dRun with
  | .ok cl => .ok { cl with time_image_resize := dResize }
  | .err s => .err s
  | .panicked => .panicked

/-- Translation of `ImageClassifier::classify_from_raw`: decode the bytes
(`image::load_from_memory`; error `InvalidArgument` on failure), then
`classify`, and on success store the measured load duration in
`time_image_load`. -/
def classify_from_raw (lib : ImageLib) (c : ImageClassifier) (data : List Nat)
    (dLoad dResize dRun : Int) : RResult Classification :=
  match lib.load_from_memory data with
  | none => .err ⟨.invalidArgument, "Could create image from raw data"⟩
  | some image =>
    match classify lib c image dResize dRun with
    | .ok cl => .ok { cl with time_image_load := dLoad }
    | .err s => .err s
    | .panicked => .panicked

/-- Result of the network for one URL, as observed through `reqwest`:
`none` models `reqwest::get` returning `Err` (network-level failure);
otherwise the HTTP status code together with the result of reading the
body (`none` models `Response::copy_to` failing, e.g. a truncated read).
The source never inspects the status code. -/
def NetOracle : Type := String → Option (Nat × Option (List Nat))

/-- Translation of `ImageClassifier::classify_from_url`: `reqwest::get` (error `NotFound`
"Invalid URL" on failure), `copy_to` into a buffer (error `DataLoss` on
failure), then `classify_from_raw`, and on success store the measured
fetch duration in `time_url_fetch`.  The HTTP status code is ignored. -/
def classify_from_url (lib : ImageLib) (net : NetOracle) (c : ImageClassifier)
    (url : String) (dFetch dLoad dResize dRun : Int) : RResult Classification :=
  match net url with
  | none => .err ⟨.notFound, "Invalid URL"⟩
  | some (_, none) => .err ⟨.dataLoss, "Could not read image from URL"⟩
  | some (_, some buf) =>
    match classify_from_raw lib c buf dLoad dResize dRun with
    | .ok cl => .ok { cl with time_url_fetch := dFetch }
    | .err s => .err s
    | .panicked => .panicked

/-- A request against a running classifier, one per public entry point;
each carries the measured durations of the stages it times. -/
inductive Request where
  | fromTensor (t : List F32) (dRun : Int)
  | fromImage (img : DynamicImage) (dResize dRun : Int)
  | fromRaw (data : List Nat) (dLoad dResize dRun : Int)
  | fromUrl (url : String) (dFetch dLoad dResize dRun : Int)

/-- Dispatch one request.  Every method takes `&self`, so the classifier
state handed to the next request is the same value. -/
def handle (lib : ImageLib) (net : NetOracle) (c : ImageClassifier) :
    Request → RResult Classification × ImageClassifier
  | .fromTensor t dRun => (run c t dRun, c)
  | .fromImage img dResize dRun => (classify lib c img dResize dRun, c)
  | .fromRaw data dLoad dResize dRun => (classify_from_raw lib c data dLoad dResize dRun, c)
  | .fromUrl url dFetch dLoad dResize dRun =>
      (classify_from_url lib net c url dFetch dLoad dResize dRun, c)

/-- Serve a sequence of requests, threading the classifier state. -/
def serve (lib : ImageLib) (net : NetOracle) (c : ImageClassifier) :
    List Request → List (RResult Classification)
  | [] => []
  | r :: rs =>
    let p := handle lib net c r
    p.1 :: serve lib net p.2 rs

/-- A concrete decoded image (2×2, all channels `7`) used to instantiate
theorems on concrete inputs. -/
def modelRgb : RgbImage where
  width := 2
  height := 2
  pixel := fun _ _ _ => 7
  pixel_lt := by intro y x c; show (7 : Nat) < 256; decide

/-- The concrete image wrapped as a `DynamicImage`. -/
def modelImage : DynamicImage := ⟨modelRgb⟩

/-- A concrete instance of the `image` crate interface: every non-empty
byte list decodes to `modelImage`, the empty one is undecodable, and
`resize` samples the source pixel function at the target coordinates. -/
def modelLib : ImageLib where
  load_from_memory := fun data => if data = [] then none else some modelImage
  resize := fun i w h _ => ⟨w, h, fun y x c => i.pixel y x c, fun y x c => i.pixel_lt y x c⟩
  resize_width := fun _ _ _ _ => rfl
  resize_height := fun _ _ _ _ => rfl

/-- A classifier state whose graph has both required operations, whose
session always returns `out`, and whose tags file holds `tags`. -/
def mkClassifier (out : List F32) (tags : List (Option String)) : ImageClassifier :=
  ⟨true, true, fun _ => .ok out, some tags⟩

/-- A concrete classifier: the model maps every input to the distribution
`[0, 1]` over the two labels `cat` and `dog`. -/
def modelClassifier : ImageClassifier :=
  mkClassifier [F32.finite 0, F32.finite 1] [some "cat", some "dog"]

/-- A concrete network oracle: every URL yields status 200 and the
one-byte body `[5]`. -/
def modelNet : NetOracle := fun _ => some (200, some [5])

/-- A network oracle on which every request fails at the network level. -/
def netFail : NetOracle := fun _ => none

/-- A network oracle returning HTTP status 404 (non-success) with an
empty, undecodable body, and a complete body read. -/
def netNotFoundPage : NetOracle := fun _ => some (404, some [])

theorem qcmp_eq_gt {a b : ℚ} : qcmp a b = .gt ↔ b < a := by
  unfold qcmp
  split_ifs with h1 h2
  · exact ⟨fun h => absurd h (by decide), fun h => absurd h1 (not_lt_of_gt h)⟩
  · exact ⟨fun _ => h2, fun _ => rfl⟩
  · exact ⟨fun h => absurd h (by decide), fun h => absurd h h2⟩

theorem cmpF_finite {a b : F32} (ha : a.isFinite = true) (hb : b.isFinite = true) :
    cmpF a b = qcmp a.val b.val := by
  cases a <;> cases b <;> simp_all [F32.isFinite, cmpF, F32.partialCmp, F32.val]

theorem pairCmp_gt {m y : Nat × F32} (hm : m.2.isFinite = true) (hy : y.2.isFinite = true) :
    pairCmp m y = .gt ↔ y.2.val < m.2.val := by
  rw [pairCmp, cmpF_finite hm hy, qcmp_eq_gt]

theorem stepMax_cases (m y : Nat × F32) : stepMax m y = m ∨ stepMax m y = y := by
  unfold stepMax
  by_cases h : pairCmp m y = .gt <;> simp [h]

theorem mem_enumFrom_exists {α : Type} :
    ∀ (l : List α) (n : Nat) (p : Nat × α), p ∈ l.enumFrom n →
      ∃ i, p.1 = n + i ∧ l.get? i = some p.2
  | [], _, _, h => by simp [List.enumFrom] at h
  | x :: xs, n, p, h => by
    simp only [List.enumFrom, List.mem_cons] at h
    rcases h with h | h
    · exact ⟨0, by simp [h]⟩
    · obtain ⟨i, hi, hg⟩ := mem_enumFrom_exists xs (n + 1) p h
      exact ⟨i + 1, by omega, by simpa using hg⟩

theorem get?_mem_enumFrom {α : Type} :
    ∀ (l : List α) (n i : Nat) (a : α), l.get? i = some a → (n + i, a) ∈ l.enumFrom n
  | [], _, i, _, h => by simp at h
  | x :: xs, n, 0, a, h => by
    simp at h
    simp [List.enumFrom, h]
  | x :: xs, n, i + 1, a, h => by
    simp only [List.get?] at h
    have := get?_mem_enumFrom xs (n + 1) i a h
    simpa [List.enumFrom, show n + 1 + i = n + (i + 1) by omega] using this

theorem fst_ge_of_mem_enumFrom {α : Type} (l : List α) (n : Nat) (p : Nat × α)
    (h : p ∈ l.enumFrom n) : n ≤ p.1 := by
  obtain ⟨i, hi, _⟩ := mem_enumFrom_exists l n p h
  omega

theorem snd_mem_of_mem_enumFrom {α : Type} (l : List α) (n : Nat) (p : Nat × α)
    (h : p ∈ l.enumFrom n) : p.2 ∈ l := by
  obtain ⟨i, _, hg⟩ := mem_enumFrom_exists l n p h
  exact List.mem_iff_get?.mpr ⟨i, hg⟩

theorem pairwise_fst_lt_enumFrom {α : Type} :
    ∀ (l : List α) (n : Nat), (l.enumFrom n).Pairwise (fun p q => p.1 < q.1)
  | [], _ => by simp [List.enumFrom]
  | x :: xs, n => by
    simp only [List.enumFrom]
    refine List.Pairwise.cons ?_ (pairwise_fst_lt_enumFrom xs (n + 1))
    intro p hp
    have := fst_ge_of_mem_enumFrom xs (n + 1) p hp
    omega

theorem foldl_choice {α : Type} (cmp : α → α → Ordering) :
    ∀ (xs : List α) (m : α),
      xs.foldl (fun m y => if cmp m y = .gt then m else y) m = m ∨
      xs.foldl (fun m y => if cmp m y = .gt then m else y) m ∈ xs
  | [], _ => Or.inl rfl
  | x :: xs, m => by
    simp only [List.foldl_cons]
    by_cases hc : cmp m x = .gt
    · rw [if_pos hc]
      rcases foldl_choice cmp xs m with h | h
      · exact Or.inl h
      · exact Or.inr (List.mem_cons_of_mem x h)
    · rw [if_neg hc]
      rcases foldl_choice cmp xs x with h | h
      · rw [h]
        exact Or.inr (List.mem_cons_self x xs)
      · exact Or.inr (List.mem_cons_of_mem x h)

theorem rustMaxBy_mem {α : Type} (cmp : α → α → Ordering) (l : List α) (hne : l ≠ []) :
    ∃ r, rustMaxBy cmp l = some r ∧ r ∈ l := by
  match l with
  | [] => exact absurd rfl hne
  | x :: xs =>
    refine ⟨_, rfl, ?_⟩
    rcases foldl_choice cmp xs x with h | h
    · rw [h]
      exact List.mem_cons_self x xs
    · exact List.mem_cons_of_mem x h

theorem foldl_stepMax_spec :
    ∀ (xs : List (Nat × F32)) (m : Nat × F32),
      m.2.isFinite = true →
      (∀ p ∈ xs, p.2.isFinite = true) →
      (∀ p ∈ xs, m.1 < p.1) →
      xs.Pairwise (fun p q => p.1 < q.1) →
      (xs.foldl stepMax m = m ∨ xs.foldl stepMax m ∈ xs) ∧
      m.2.val ≤ (xs.foldl stepMax m).2.val ∧
      (∀ p ∈ xs, p.2.val ≤ (xs.foldl stepMax m).2.val) ∧
      m.1 ≤ (xs.foldl stepMax m).1 ∧
      (∀ p ∈ xs, p.2.val = (xs.foldl stepMax m).2.val → p.1 ≤ (xs.foldl stepMax m).1)
  | [], m, _, _, _, _ => by simp
  | p :: ps, m, hmf, hf, hidx, hpw => by
    have hpf : p.2.isFinite = true := hf p (List.mem_cons_self p ps)
    have hgt : pairCmp m p = .gt ↔ p.2.val < m.2.val := pairCmp_gt hmf hpf
    have hm'cases : stepMax m p = m ∨ stepMax m p = p := stepMax_cases m p
    have hm'f : (stepMax m p).2.isFinite = true := by
      rcases hm'cases with h | h <;> rw [h] <;> assumption
    have hmm' : m.2.val ≤ (stepMax m p).2.val := by
      unfold stepMax
      by_cases hc : pairCmp m p = .gt
      · rw [if_pos hc]
      · rw [if_neg hc]
        exact le_of_not_lt (fun hlt => hc (hgt.mpr hlt))
    have hpm' : p.2.val ≤ (stepMax m p).2.val := by
      unfold stepMax
      by_cases hc : pairCmp m p = .gt
      · rw [if_pos hc]
        exact le_of_lt (hgt.mp hc)
      · rw [if_neg hc]
    have hidxm' : m.1 ≤ (stepMax m p).1 := by
      rcases hm'cases with h | h <;> rw [h]
      exact le_of_lt (hidx p (List.mem_cons_self p ps))
    have hf' : ∀ q ∈ ps, q.2.isFinite = true :=
      fun q hq => hf q (List.mem_cons_of_mem p hq)
    have hidx' : ∀ q ∈ ps, (stepMax m p).1 < q.1 := by
      intro q hq
      rcases hm'cases with h | h <;> rw [h]
      · exact hidx q (List.mem_cons_of_mem p hq)
      · exact (List.pairwise_cons.mp hpw).1 q hq
    have hpw' : ps.Pairwise (fun a b => a.1 < b.1) := (List.pairwise_cons.mp hpw).2
    obtain ⟨ih1, ih2, ih3, ih4, ih5⟩ :=
      foldl_stepMax_spec ps (stepMax m p) hm'f hf' hidx' hpw'
    simp only [List.foldl_cons]
    refine ⟨?_, le_trans hmm' ih2, ?_, le_trans hidxm' ih4, ?_⟩
    · rcases ih1 with h | h
      · rcases hm'cases with h2 | h2
        · exact Or.inl (h.trans h2)
        · exact Or.inr (by rw [h, h2]; exact List.mem_cons_self p ps)
      · exact Or.inr (List.mem_cons_of_mem p h)
    · intro q hq
      rcases List.mem_cons.mp hq with h | h
      · rw [h]
        exact le_trans hpm' ih2
      · exact ih3 q h
    · intro q hq hval
      rcases List.mem_cons.mp hq with h | h
      · rw [h] at hval ⊢
        by_cases hc : pairCmp m p = .gt
        · exfalso
          have hm'm : stepMax m p = m := by unfold stepMax; rw [if_pos hc]
          have hle : p.2.val < (stepMax m p).2.val := by
            rw [hm'm]
            exact hgt.mp hc
          exact absurd hval (ne_of_lt (lt_of_lt_of_le hle ih2))
        · have hm'p : stepMax m p = p := by unfold stepMax; rw [if_neg hc]
          exact le_trans (le_of_eq (congrArg Prod.fst hm'p.symm)) ih4
      · exact ih5 q h hval

theorem rustMaxBy_enum_spec (l : List F32) (hne : l ≠ [])
    (hfin : ∀ x ∈ l, x.isFinite = true) :
    ∃ i v, rustMaxBy pairCmp l.enum = some (i, v) ∧
      l.get? i = some v ∧
      (∀ j w, l.get? j = some w → w.val ≤ v.val) ∧
      (∀ j w, l.get? j = some w → w.val = v.val → j ≤ i) := by
  match l with
  | [] => exact absurd rfl hne
  | x :: rest =>
    have hmf : ((0, x) : Nat × F32).2.isFinite = true :=
      hfin x (List.mem_cons_self x rest)
    have hf : ∀ p ∈ rest.enumFrom 1, p.2.isFinite = true := fun p hp =>
      hfin p.2 (List.mem_cons_of_mem x (snd_mem_of_mem_enumFrom rest 1 p hp))
    have hidx : ∀ p ∈ rest.enumFrom 1, ((0, x) : Nat × F32).1 < p.1 := by
      intro p hp
      have := fst_ge_of_mem_enumFrom rest 1 p hp
      simpa using lt_of_lt_of_le Nat.zero_lt_one this
    obtain ⟨h1, h2, h3, h4, h5⟩ :=
      foldl_stepMax_spec (rest.enumFrom 1) (0, x) hmf hf hidx
        (pairwise_fst_lt_enumFrom rest 1)
    refine ⟨((rest.enumFrom 1).foldl stepMax (0, x)).1,
            ((rest.enumFrom 1).foldl stepMax (0, x)).2, rfl, ?_, ?_, ?_⟩
    · rcases h1 with h | h
      · rw [h]
        rfl
      · obtain ⟨i, hi, hg⟩ := mem_enumFrom_exists rest 1 _ h
        rw [hi, show 1 + i = i + 1 by omega]
        simpa using hg
    · intro j w hj
      match j, hj with
      | 0, hj =>
        have hw : x = w := by simpa using hj
        exact hw ▸ h2
      | j + 1, hj =>
        have hj' : rest.get? j = some w := by simpa using hj
        exact h3 (1 + j, w) (get?_mem_enumFrom rest 1 j w hj')
    · intro j w hj hval
      match j, hj with
      | 0, _ => exact Nat.zero_le _
      | j + 1, hj =>
        have hj' : rest.get? j = some w := by simpa using hj
        have := h5 (1 + j, w) (get?_mem_enumFrom rest 1 j w hj') hval
        omega

theorem into_raw_length (img : RgbImage) :
    img.into_raw.length = img.height * img.width * 3 := by
  simp [RgbImage.into_raw]

theorem into_raw_mem_lt (img : RgbImage) : ∀ b ∈ img.into_raw, b < 256 := by
  intro b hb
  simp only [RgbImage.into_raw, List.mem_map] at hb
  obtain ⟨k, _, hk⟩ := hb
  exact hk ▸ img.pixel_lt _ _ _

theorem into_raw_get_at (img : RgbImage) (y x ch : Nat)
    (hy : y < img.height) (hx : x < img.width) (hch : ch < 3) :
    img.into_raw.get? ((y * img.width + x) * 3 + ch) = some (img.pixel y x ch) := by
  have hxw : y * img.width + x < img.height * img.width := by
    calc y * img.width + x < y * img.width + img.width := by omega
    _ = (y + 1) * img.width := by ring
    _ ≤ img.height * img.width := Nat.mul_le_mul_right _ hy
  have hk : (y * img.width + x) * 3 + ch < img.height * img.width * 3 := by
    calc (y * img.width + x) * 3 + ch < ((y * img.width + x) + 1) * 3 := by omega
    _ ≤ img.height * img.width * 3 := Nat.mul_le_mul_right _ (Nat.succ_le_of_lt hxw)
  have hw3 : 0 < img.width * 3 := by omega
  have hrw : (y * img.width + x) * 3 + ch = img.width * 3 * y + (x * 3 + ch) := by ring
  have hlt3 : x * 3 + ch < img.width * 3 := by
    calc x * 3 + ch < (x + 1) * 3 := by omega
    _ ≤ img.width * 3 := Nat.mul_le_mul_right _ (Nat.succ_le_of_lt hx)
  have hdiv : ((y * img.width + x) * 3 + ch) / (img.width * 3) = y := by
    rw [hrw, Nat.mul_add_div hw3, Nat.div_eq_of_lt hlt3]
    omega
  have hmod : ((y * img.width + x) * 3 + ch) % (img.width * 3) = x * 3 + ch := by
    rw [hrw, Nat.mul_add_mod, Nat.mod_eq_of_lt hlt3]
  have hmod3 : (x * 3 + ch) / 3 = x := by omega
  have hch3 : ((y * img.width + x) * 3 + ch) % 3 = ch := by
    have h3 : (y * img.width + x) * 3 + ch = 3 * (y * img.width + x) + ch := by ring
    rw [h3, Nat.mul_add_mod, Nat.mod_eq_of_lt hch]
  simp only [RgbImage.into_raw, List.get?_map, List.get?_range hk, Option.map_some']
  rw [hdiv, hmod, hmod3, hch3]

theorem preprocess_length (lib : ImageLib) (img : DynamicImage) :
    (preprocess_tensor lib img).length = tfDims.prod := by
  unfold preprocess_tensor
  rw [List.length_map, into_raw_length, lib.resize_width, lib.resize_height]
  decide

theorem tensorNew_preprocess (lib : ImageLib) (img : DynamicImage) :
    tensorNew (preprocess_tensor lib img) = some (preprocess_tensor lib img) := by
  unfold tensorNew
  rw [preprocess_length]
  simp

theorem get_tag_ok_inv {c : ImageClassifier} {t : List F32} {cl : Classification}
    (h : get_tag c t = .ok cl) :
    ∃ lines best, c.tagsFile = some lines ∧
      rustMaxBy pairCmp t.enum = some best ∧
      lines.get? best.1 = some (some cl.tag) ∧
      cl.probability = best.2 ∧ best.2 ∈ t ∧
      cl.time_url_fetch = 0 ∧ cl.time_image_load = 0 ∧
      cl.time_image_resize = 0 ∧ cl.time_session_run = 0 := by
  unfold get_tag at h
  split at h
  next hc => exact RResult.noConfusion h
  next lines hc =>
    split at h
    next hm => exact RResult.noConfusion h
    next best hm =>
      split at h
      next hl => exact RResult.noConfusion h
      next hl => exact RResult.noConfusion h
      next tag hl =>
        have hcl : Classification.mk tag best.2 0 0 0 0 = cl := RResult.ok.inj h
        have htne : t.enum ≠ [] := by
          intro he
          rw [he] at hm
          exact Option.noConfusion hm
        obtain ⟨r, hr, hrm⟩ := rustMaxBy_mem pairCmp t.enum htne
        have hrbest : r = best := by
          rw [hr] at hm
          exact Option.some.inj hm
        have hmem : best.2 ∈ t := by
          have hs := snd_mem_of_mem_enumFrom t 0 r hrm
          rw [hrbest] at hs
          exact hs
        refine ⟨lines, best, hc, hm, ?_, ?_, hmem, ?_, ?_, ?_, ?_⟩ <;> rw [← hcl]
        exact hl

theorem run_ok_inv {c : ImageClassifier} {image : List F32} {d : Int}
    {cl : Classification} (h : run c image d = .ok cl) :
    ∃ output cl0, image.length = tfDims.prod ∧
      c.hasInputOp = true ∧ c.hasOutputOp = true ∧
      c.sessionRun image = .ok output ∧
      get_tag c output = .ok cl0 ∧
      cl = { cl0 with time_session_run := d } := by
  unfold run at h
  split at h
  next hnone => exact RResult.noConfusion h
  next input hsome =>
    have hli : image.length = tfDims.prod ∧ input = image := by
      unfold tensorNew at hsome
      by_cases hc : image.length = tfDims.prod
      · rw [if_pos hc] at hsome
        exact ⟨hc, (Option.some.inj hsome).symm⟩
      · rw [if_neg hc] at hsome
        exact Option.noConfusion hsome
    obtain ⟨hlen, rfl⟩ := hli
    split at h
    next hin => exact RResult.noConfusion h
    next hin =>
      split at h
      next hout => exact RResult.noConfusion h
      next hout =>
        split at h
        next s hs => exact RResult.noConfusion h
        next output hs =>
          split at h
          next cl0 hg =>
            refine ⟨output, cl0, hlen, ?_, ?_, hs, hg, (RResult.ok.inj h).symm⟩
            · revert hin
              cases c.hasInputOp <;> simp
            · revert hout
              cases c.hasOutputOp <;> simp
          next s hg => exact RResult.noConfusion h
          next hg => exact RResult.noConfusion h

theorem classify_ok_inv {lib : ImageLib} {c : ImageClassifier} {img : DynamicImage}
    {dResize dRun : Int} {cl : Classification}
    (h : classify lib c img dResize dRun = .ok cl) :
    ∃ cl0, run c (preprocess_tensor lib img) dRun = .ok cl0 ∧
      cl = { cl0 with time_image_resize := dResize } := by
  unfold classify at h
  split at h
  next cl0 hr => exact ⟨cl0, hr, (RResult.ok.inj h).symm⟩
  next s hr => exact RResult.noConfusion h
  next hr => exact RResult.noConfusion h

theorem classify_from_raw_ok_inv {lib : ImageLib} {c : ImageClassifier}
    {data : List Nat} {dLoad dResize dRun : Int} {cl : Classification}
    (h : classify_from_raw lib c data dLoad dResize dRun = .ok cl) :
    ∃ img cl0, lib.load_from_memory data = some img ∧
      classify lib c img dResize dRun = .ok cl0 ∧
      cl = { cl0 with time_image_load := dLoad } := by
  unfold classify_from_raw at h
  split at h
  next hd => exact RResult.noConfusion h
  next img hd =>
    split at h
    next cl0 hc => exact ⟨img, cl0, hd, hc, (RResult.ok.inj h).symm⟩
    next s hc => exact RResult.noConfusion h
    next hc => exact RResult.noConfusion h

theorem classify_from_url_ok_inv {lib : ImageLib} {net : NetOracle}
    {c : ImageClassifier} {url : String} {dFetch dLoad dResize dRun : Int}
    {cl : Classification}
    (h : classify_from_url lib net c url dFetch dLoad dResize dRun = .ok cl) :
    ∃ st buf cl0, net url = some (st, some buf) ∧
      classify_from_raw lib c buf dLoad dResize dRun = .ok cl0 ∧
      cl = { cl0 with time_url_fetch := dFetch } := by
  unfold classify_from_url at h
  split at h
  next hn => exact RResult.noConfusion h
  next st hn => exact RResult.noConfusion h
  next st buf hn =>
    split at h
    next cl0 hc => exact ⟨st, buf, cl0, hn, hc, (RResult.ok.inj h).symm⟩
    next s hc => exact RResult.noConfusion h
    next hc => exact RResult.noConfusion h

theorem mkClassifier_input (out : List F32) (tags : List (Option String)) :
    (mkClassifier out tags).hasInputOp = true := rfl

theorem mkClassifier_output (out : List F32) (tags : List (Option String)) :
    (mkClassifier out tags).hasOutputOp = true := rfl

theorem mkClassifier_session (out : List F32) (tags : List (Option String))
    (input : List F32) : (mkClassifier out tags).sessionRun input = .ok out := rfl

theorem modelLib_load_some (data : List Nat) (hne : data ≠ []) :
    modelLib.load_from_memory data = some modelImage := by
  unfold modelLib
  simp [hne]

theorem run_mk_eval (out : List F32) (tags : List (Option String))
    (lib : ImageLib) (img : DynamicImage) (tag : String) (v : F32) (dRun : Int)
    (hg : get_tag (mkClassifier out tags) out = .ok ⟨tag, v, 0, 0, 0, 0⟩) :
    run (mkClassifier out tags) (preprocess_tensor lib img) dRun
      = .ok ⟨tag, v, 0, 0, 0, dRun⟩ := by
  unfold run
  simp only [tensorNew_preprocess, mkClassifier_input, mkClassifier_output,
    mkClassifier_session, hg]
  rfl

theorem classify_mk_eval (out : List F32) (tags : List (Option String))
    (lib : ImageLib) (img : DynamicImage) (tag : String) (v : F32)
    (dResize dRun : Int)
    (hg : get_tag (mkClassifier out tags) out = .ok ⟨tag, v, 0, 0, 0, 0⟩) :
    classify lib (mkClassifier out tags) img dResize dRun
      = .ok ⟨tag, v, 0, 0, dResize, dRun⟩ := by
  unfold classify
  rw [run_mk_eval out tags lib img tag v dRun hg]

theorem classify_from_raw_decoded (lib : ImageLib) (c : ImageClassifier)
    (data : List Nat) (img : DynamicImage) (dLoad dResize dRun : Int)
    (hd : lib.load_from_memory data = some img) :
    classify_from_raw lib c data dLoad dResize dRun =
      match classify lib c img dResize dRun with
      | .ok cl => .ok { cl with time_image_load := dLoad }
      | .err s => .err s
      | .panicked => .panicked := by
  unfold classify_from_raw
  rw [hd]

theorem classify_from_url_fetched (lib : ImageLib) (net : NetOracle)
    (c : ImageClassifier) (url : String) (st : Nat) (buf : List Nat)
    (dFetch dLoad dResize dRun : Int) (hn : net url = some (st, some buf)) :
    classify_from_url lib net c url dFetch dLoad dResize dRun =
      match classify_from_raw lib c buf dLoad dResize dRun with
      | .ok cl => .ok { cl with time_url_fetch := dFetch }
      | .err s => .err s
      | .panicked => .panicked := by
  unfold classify_from_url
  rw [hn]

theorem classify_from_raw_mk_eval (out : List F32) (tags : List (Option String))
    (data : List Nat) (hne : data ≠ []) (tag : String) (v : F32)
    (dLoad dResize dRun : Int)
    (hg : get_tag (mkClassifier out tags) out = .ok ⟨tag, v, 0, 0, 0, 0⟩) :
    classify_from_raw modelLib (mkClassifier out tags) data dLoad dResize dRun
      = .ok ⟨tag, v, 0, dLoad, dResize, dRun⟩ := by
  rw [classify_from_raw_decoded modelLib (mkClassifier out tags) data modelImage
    dLoad dResize dRun (modelLib_load_some data hne)]
  rw [classify_mk_eval out tags modelLib modelImage tag v dResize dRun hg]

theorem classify_from_url_mk_eval (out : List F32) (tags : List (Option String))
    (url : String) (tag : String) (v : F32) (dFetch dLoad dResize dRun : Int)
    (hg : get_tag (mkClassifier out tags) out = .ok ⟨tag, v, 0, 0, 0, 0⟩) :
    classify_from_url modelLib modelNet (mkClassifier out tags) url
        dFetch dLoad dResize dRun
      = .ok ⟨tag, v, dFetch, dLoad, dResize, dRun⟩ := by
  rw [classify_from_url_fetched modelLib modelNet (mkClassifier out tags) url
    200 [5] dFetch dLoad dResize dRun rfl]
  rw [classify_from_raw_mk_eval out tags [5] (by decide) tag v
    dLoad dResize dRun hg]

theorem get_tag_model_eval :
    get_tag (mkClassifier [F32.finite 0, F32.finite 1] [some "cat", some "dog"])
        [F32.finite 0, F32.finite 1]
      = .ok ⟨"dog", F32.finite 1, 0, 0, 0, 0⟩ := by decide

/-- C1 (amended): for a probability vector whose `max_by` selection is
`(i, v)` and a tags file that opens as `lines`: if line `i` exists and
reads successfully, `get_tag` succeeds with that line and probability `v`;
if `i` is past the last line, or line `i` itself fails to read, `get_tag`
panics (`unwrap` of `nth`/`Result`) instead of returning a tagged error;
and when every line is readable and there are at least as many lines as
vector entries, `get_tag` always succeeds. -/
theorem C1_label_lookup (c : ImageClassifier) (lines : List (Option String))
    (t : List F32) (i : Nat) (v : F32)
    (hc : c.tagsFile = some lines)
    (hmax : rustMaxBy pairCmp t.enum = some (i, v)) :
    (∀ tag, lines.get? i = some (some tag) → get_tag c t = .ok ⟨tag, v, 0, 0, 0, 0⟩) ∧
    (lines.length ≤ i → get_tag c t = .panicked) ∧
    (lines.get? i = some none → get_tag c t = .panicked) ∧
    ((∀ o ∈ lines, o.isSome = true) → t.length ≤ lines.length →
      ∃ tag, lines.get? i = some (some tag) ∧ get_tag c t = .ok ⟨tag, v, 0, 0, 0, 0⟩) := by
  have hchar : get_tag c t =
      match lines.get? i with
      | none => .panicked
      | some none => .panicked
      | some (some tag) => .ok ⟨tag, v, 0, 0, 0, 0⟩ := by
    unfold get_tag
    simp only [hc, hmax]
  refine ⟨?_, ?_, ?_, ?_⟩
  · intro tag hl
    rw [hchar, hl]
  · intro hlen
    rw [hchar, List.get?_eq_none.mpr hlen]
  · intro hl
    rw [hchar, hl]
  · intro hread hlen
    have htne : t.enum ≠ [] := by
      intro he
      rw [he] at hmax
      exact Option.noConfusion hmax
    obtain ⟨r, hr, hrm⟩ := rustMaxBy_mem pairCmp t.enum htne
    have hri : r = (i, v) := by
      rw [hr] at hmax
      exact Option.some.inj hmax
    obtain ⟨k, hk1, hk2⟩ := mem_enumFrom_exists t 0 r hrm
    have hik : i = k := by rw [hri] at hk1; simpa using hk1
    have hkt : k < t.length := by
      obtain ⟨hlt, _⟩ := List.get?_eq_some.mp hk2
      exact hlt
    have hil : i < lines.length := by omega
    have hgl : lines.get? i = some (lines.get ⟨i, hil⟩) := List.get?_eq_get hil
    have hmem : lines.get ⟨i, hil⟩ ∈ lines := List.get_mem lines i hil
    obtain ⟨tag, htag⟩ := Option.isSome_iff_exists.mp (hread _ hmem)
    refine ⟨tag, ?_, ?_⟩
    · rw [hgl, htag]
    · rw [hchar, hgl, htag]

/-- C1 counterexample to the claim as stated: with a 2-entry probability
vector and an empty tags file, `get_tag` panics instead of returning a
tagged `LabelLookupError`; and with a vector selecting line 1 while line 0
fails to read, `get_tag` still succeeds (a failing line strictly before
the selected index does not cause a failure). -/
theorem C1_counterexample :
    get_tag (mkClassifier [] (([] : List (Option String)))) [F32.finite 1] = .panicked ∧
    get_tag (mkClassifier [] [none, some "b"]) [F32.finite 0, F32.finite 1]
      = .ok ⟨"b", F32.finite 1, 0, 0, 0, 0⟩ := by decide

/-- C1 witness: concrete successful lookup through the amended theorem. -/
theorem C1_witness :
    get_tag (mkClassifier [F32.finite 0, F32.finite 1] [some "cat", some "dog"])
        [F32.finite 0, F32.finite 1]
      = .ok ⟨"dog", F32.finite 1, 0, 0, 0, 0⟩ :=
  (C1_label_lookup
    (mkClassifier [F32.finite 0, F32.finite 1] [some "cat", some "dog"])
    [some "cat", some "dog"] [F32.finite 0, F32.finite 1] 1 (F32.finite 1)
    rfl (by decide)).1 "dog" (by decide)

/-- C6: when the byte buffer does not decode to an image,
`classify_from_raw` returns the tagged `InvalidArgument` error
("Could create image from raw data") for every classifier state — no
panic, and no dependence on any later pipeline stage. -/
theorem C6_invalid_image (lib : ImageLib) (c : ImageClassifier) (data : List Nat)
    (dLoad dResize dRun : Int) (hdec : lib.load_from_memory data = none) :
    classify_from_raw lib c data dLoad dResize dRun
      = .err ⟨.invalidArgument, "Could create image from raw data"⟩ := by
  unfold classify_from_raw
  rw [hdec]

/-- C6 witness: the empty byte list is undecodable in `modelLib`. -/
theorem C6_witness :
    classify_from_raw modelLib (mkClassifier [] []) [] 1 2 3
      = .err ⟨.invalidArgument, "Could create image from raw data"⟩ :=
  C6_invalid_image modelLib (mkClassifier [] []) [] 1 2 3 rfl

/-- C7 (amended): `classify_from_url` fails with the tagged `NotFound`
FetchError when the request itself fails, and with the tagged `DataLoss`
FetchError when the body read fails; but the HTTP status code is never
inspected: when a body is obtained — whatever the status — the bytes are
handed to `classify_from_raw`, so a non-success status alone does not
produce a FetchError. -/
theorem C7_fetch_errors (lib : ImageLib) (net : NetOracle) (c : ImageClassifier)
    (url : String) (dFetch dLoad dResize dRun : Int) :
    (net url = none →
      classify_from_url lib net c url dFetch dLoad dResize dRun
        = .err ⟨.notFound, "Invalid URL"⟩) ∧
    (∀ st, net url = some (st, none) →
      classify_from_url lib net c url dFetch dLoad dResize dRun
        = .err ⟨.dataLoss, "Could not read image from URL"⟩) ∧
    (∀ st buf, net url = some (st, some buf) →
      classify_from_url lib net c url dFetch dLoad dResize dRun
        = match classify_from_raw lib c buf dLoad dResize dRun with
          | .ok cl => .ok { cl with time_url_fetch := dFetch }
          | .err s => .err s
          | .panicked => .panicked) := by
  refine ⟨?_, ?_, ?_⟩
  · intro h
    unfold classify_from_url
    rw [h]
  · intro st h
    unfold classify_from_url
    rw [h]
  · intro st buf h
    exact classify_from_url_fetched lib net c url st buf dFetch dLoad dResize dRun h

/-- C7 counterexample to the claim as stated: a 404 response whose body is
read completely but is not an image produces the `InvalidImageError`
(`InvalidArgument`) of the decode stage, not a FetchError (`NotFound` or
`DataLoss`): the non-success status is not detected and a later stage
does run. -/
theorem C7_counterexample :
    classify_from_url modelLib netNotFoundPage (mkClassifier [] [])
        "http://host/missing" 1 2 3 4
      = .err ⟨.invalidArgument, "Could create image from raw data"⟩ ∧
    Code.invalidArgument ≠ Code.notFound ∧ Code.invalidArgument ≠ Code.dataLoss := by
  refine ⟨rfl, by decide, by decide⟩

/-- C7 witness: a network-level failure yields the `NotFound` FetchError. -/
theorem C7_witness :
    classify_from_url modelLib netFail (mkClassifier [] []) "http://host/img" 1 2 3 4
      = .err ⟨.notFound, "Invalid URL"⟩ :=
  (C7_fetch_errors modelLib netFail (mkClassifier [] []) "http://host/img" 1 2 3 4).1 rfl

/-- C8: every entry point takes the classifier by shared reference, so
handling any request returns the classifier state unchanged, and a
sequence of requests (successes and failures alike) is answered exactly
as if each request ran against the original state. -/
theorem C8_state_unchanged (lib : ImageLib) (net : NetOracle) (c : ImageClassifier) :
    (∀ r, (handle lib net c r).2 = c) ∧
    (∀ rs, serve lib net c rs = rs.map (fun r => (handle lib net c r).1)) := by
  have h1 : ∀ r, (handle lib net c r).2 = c := by
    intro r
    cases r <;> rfl
  refine ⟨h1, ?_⟩
  intro rs
  induction rs with
  | nil => rfl
  | cons r rs ih =>
    simp only [serve, List.map_cons]
    rw [h1 r, ih]

/-- C9: with a readable tags file, an empty model output vector makes
`get_tag` panic (`max_by` returns `None` and is unwrapped), rather than
returning a tagged error. -/
theorem C9_empty_tensor_panics (c : ImageClassifier) (lines : List (Option String))
    (hc : c.tagsFile = some lines) : get_tag c [] = .panicked := by
  unfold get_tag
  simp only [hc]
  rfl

/-- C9 witness: concrete empty-output panic. -/
theorem C9_witness : get_tag (mkClassifier [] [some "cat"]) [] = .panicked :=
  C9_empty_tensor_panics (mkClassifier [] [some "cat"]) [some "cat"] rfl

/-- C10: `run` panics ("Bad image size") whenever the input slice does not
have exactly `1*224*224*3 = 150528` elements; and the tensor produced by
the preprocessing in `classify` always has exactly that many elements, so
the panic branch is unreachable through `classify`. -/
theorem C10_size_guard (c : ImageClassifier) (image : List F32) (d : Int)
    (hlen : image.length ≠ tfDims.prod) :
    run c image d = .panicked ∧
    ∀ (lib : ImageLib) (img : DynamicImage),
      tensorNew (preprocess_tensor lib img) = some (preprocess_tensor lib img) ∧
      (preprocess_tensor lib img).length = 1 * 224 * 224 * 3 := by
  constructor
  · unfold run tensorNew
    rw [if_neg hlen]
  · intro lib img
    refine ⟨tensorNew_preprocess lib img, ?_⟩
    rw [preprocess_length]
    decide

/-- C10 witness: the empty slice triggers the panic branch. -/
theorem C10_witness :
    run (mkClassifier [] []) [] 0 = .panicked ∧
    ∀ (lib : ImageLib) (img : DynamicImage),
      tensorNew (preprocess_tensor lib img) = some (preprocess_tensor lib img) ∧
      (preprocess_tensor lib img).length = 1 * 224 * 224 * 3 :=
  C10_size_guard (mkClassifier [] []) [] 0 (by decide)

/-- C2 (amended): for every non-empty probability vector the `max_by`
selection in `get_tag` always yields a result (incomparable NaN pairs are
treated as equal, no comparison failure is ever propagated, and the
function is deterministic); when all values are finite it selects an index
holding the maximum value, and on exact ties the LAST-seen index wins
(Rust's `max_by` keeps the later of equally-maximal elements), the chosen
line then being looked up by `get_tag`. -/
theorem C2_argmax_selection (t : List F32) (hne : t ≠ []) :
    (rustMaxBy pairCmp t.enum).isSome = true ∧
    ((∀ x ∈ t, x.isFinite = true) →
      ∃ i v, rustMaxBy pairCmp t.enum = some (i, v) ∧ t.get? i = some v ∧
        (∀ j w, t.get? j = some w → w.val ≤ v.val) ∧
        (∀ j w, t.get? j = some w → w.val = v.val → j ≤ i) ∧
        (∀ (c : ImageClassifier) (lines : List (Option String)) (tag : String),
          c.tagsFile = some lines → lines.get? i = some (some tag) →
          get_tag c t = .ok ⟨tag, v, 0, 0, 0, 0⟩)) := by
  have htne : t.enum ≠ [] := by
    cases t with
    | nil => exact absurd rfl hne
    | cons x xs => exact fun he => List.noConfusion he
  constructor
  · obtain ⟨r, hr, _⟩ := rustMaxBy_mem pairCmp t.enum htne
    rw [hr]
    rfl
  · intro hfin
    obtain ⟨i, v, hmax, hget, hmaxval, hlast⟩ := rustMaxBy_enum_spec t hne hfin
    refine ⟨i, v, hmax, hget, hmaxval, hlast, ?_⟩
    intro c lines tag hc hl
    have hchar : get_tag c t =
        match lines.get? i with
        | none => .panicked
        | some none => .panicked
        | some (some tag) => .ok ⟨tag, v, 0, 0, 0, 0⟩ := by
      unfold get_tag
      simp only [hc, hmax]
    rw [hchar, hl]

/-- C2 counterexample to the claim as stated: on the exact tie
`[1.0, 1.0]` the selection returns index 1 (the last maximal index), not
the first-seen index 0, and `get_tag` accordingly returns the label of
line 1 (`"b"`), not that of line 0 (`"a"`). -/
theorem C2_counterexample :
    rustMaxBy pairCmp ([F32.finite 1, F32.finite 1].enum) = some (1, F32.finite 1) ∧
    (1 : Nat) ≠ 0 ∧
    get_tag (mkClassifier [] [some "a", some "b"]) [F32.finite 1, F32.finite 1]
      = .ok ⟨"b", F32.finite 1, 0, 0, 0, 0⟩ ∧
    "b" ≠ "a" := by decide

/-- C2 witness: the amended argmax characterization at the concrete tied
vector `[1.0, 1.0]`. -/
theorem C2_witness :
    ∃ i v, rustMaxBy pairCmp ([F32.finite 1, F32.finite 1].enum) = some (i, v) ∧
      [F32.finite 1, F32.finite 1].get? i = some v ∧
      (∀ j w, [F32.finite 1, F32.finite 1].get? j = some w → w.val ≤ v.val) ∧
      (∀ j w, [F32.finite 1, F32.finite 1].get? j = some w → w.val = v.val → j ≤ i) ∧
      (∀ (c : ImageClassifier) (lines : List (Option String)) (tag : String),
        c.tagsFile = some lines → lines.get? i = some (some tag) →
        get_tag c [F32.finite 1, F32.finite 1] = .ok ⟨tag, v, 0, 0, 0, 0⟩) :=
  (C2_argmax_selection [F32.finite 1, F32.finite 1] (by decide)).2 (by decide)

/-- C3: the preprocessing in `classify` is exactly `to_rgb`, then
`resize(224, 224, FilterType::Triangle)`, then every byte of the raw
buffer divided by 255; the resulting tensor has `tfDims.prod = 150528`
elements, all finite values in `[0, 1]`, and the element at flat index
`(y*224 + x)*3 + ch` is channel `ch` of the resized pixel `(y, x)` —
row-major, channel-last, shape `[1, 224, 224, 3]`. -/
theorem C3_preprocessing (lib : ImageLib) (img : DynamicImage) :
    preprocess_tensor lib img =
      ((lib.resize img.to_rgb 224 224 FilterType.Triangle).into_raw).map
        (fun (b : Nat) => F32.finite ((b : ℚ) / 255)) ∧
    (preprocess_tensor lib img).length = tfDims.prod ∧
    (∀ v ∈ preprocess_tensor lib img, ∃ q : ℚ, v = F32.finite q ∧ 0 ≤ q ∧ q ≤ 1) ∧
    (∀ y x ch : Nat, y < 224 → x < 224 → ch < 3 →
      (preprocess_tensor lib img).get? ((y * 224 + x) * 3 + ch) =
        some (F32.finite
          (((lib.resize img.to_rgb 224 224 FilterType.Triangle).pixel y x ch : ℚ) / 255))) := by
  refine ⟨rfl, preprocess_length lib img, ?_, ?_⟩
  · intro v hv
    unfold preprocess_tensor at hv
    rw [List.mem_map] at hv
    obtain ⟨b, hb, hbv⟩ := hv
    have hb256 : b < 256 := into_raw_mem_lt _ b hb
    refine ⟨(b : ℚ) / 255, hbv.symm, ?_, ?_⟩
    · positivity
    · rw [div_le_one (by norm_num : (0:ℚ) < 255)]
      exact_mod_cast Nat.le_of_lt_succ hb256
  · intro y x ch hy hx hch
    have hRw := lib.resize_width img.to_rgb 224 224 .Triangle
    have hRh := lib.resize_height img.to_rgb 224 224 .Triangle
    have hget := into_raw_get_at (lib.resize img.to_rgb 224 224 .Triangle) y x ch
      (by rw [hRh]; exact hy) (by rw [hRw]; exact hx) hch
    rw [hRw] at hget
    unfold preprocess_tensor
    rw [List.get?_map, hget]
    rfl

/-- C3 witness: the first tensor element of the concrete model image is
its constant channel byte 7 divided by 255. -/
theorem C3_witness :
    (preprocess_tensor modelLib modelImage).get? 0
      = some (F32.finite ((7 : ℚ) / 255)) := by
  have h := (C3_preprocessing modelLib modelImage).2.2.2 0 0 0
    (by decide) (by decide) (by decide)
  simpa [modelLib, modelImage, modelRgb, DynamicImage.to_rgb] using h

/-- C4: each entry point, when it succeeds, stores the measured duration
of its own timed stage in the corresponding field, leaves the fields of
stages it did not execute at zero, and each wrapper keeps the inner
result unchanged except for its own stage's field. -/
theorem C4_timing_fields (lib : ImageLib) (net : NetOracle) (c : ImageClassifier)
    (t : List F32) (img : DynamicImage) (data : List Nat) (url : String)
    (dFetch dLoad dResize dRun : Int) :
    (∀ cl, run c t dRun = .ok cl →
      cl.time_url_fetch = 0 ∧ cl.time_image_load = 0 ∧
      cl.time_image_resize = 0 ∧ cl.time_session_run = dRun) ∧
    (∀ cl, classify lib c img dResize dRun = .ok cl →
      ∃ cl0, run c (preprocess_tensor lib img) dRun = .ok cl0 ∧
        cl = { cl0 with time_image_resize := dResize } ∧
        cl.time_url_fetch = 0 ∧ cl.time_image_load = 0 ∧
        cl.time_image_resize = dResize ∧ cl.time_session_run = dRun) ∧
    (∀ cl, classify_from_raw lib c data dLoad dResize dRun = .ok cl →
      ∃ img0 cl0, lib.load_from_memory data = some img0 ∧
        classify lib c img0 dResize dRun = .ok cl0 ∧
        cl = { cl0 with time_image_load := dLoad } ∧
        cl.time_url_fetch = 0 ∧ cl.time_image_load = dLoad ∧
        cl.time_image_resize = dResize ∧ cl.time_session_run = dRun) ∧
    (∀ cl, classify_from_url lib net c url dFetch dLoad dResize dRun = .ok cl →
      ∃ st buf cl0, net url = some (st, some buf) ∧
        classify_from_raw lib c buf dLoad dResize dRun = .ok cl0 ∧
        cl = { cl0 with time_url_fetch := dFetch } ∧
        cl.tag = cl0.tag ∧ cl.probability = cl0.probability ∧
        cl.time_url_fetch = dFetch ∧ cl.time_image_load = dLoad ∧
        cl.time_image_resize = dResize ∧ cl.time_session_run = dRun) := by
  refine ⟨?_, ?_, ?_, ?_⟩
  · intro cl h
    obtain ⟨output, cl0, _, _, _, _, hg, hcl⟩ := run_ok_inv h
    obtain ⟨_, _, _, _, _, _, _, hz1, hz2, hz3, _⟩ := get_tag_ok_inv hg
    subst hcl
    exact ⟨hz1, hz2, hz3, rfl⟩
  · intro cl h
    obtain ⟨cl0, hr, hcl⟩ := classify_ok_inv h
    obtain ⟨output, cl00, _, _, _, _, hg, hcl0⟩ := run_ok_inv hr
    obtain ⟨_, _, _, _, _, _, _, hz1, hz2, _, _⟩ := get_tag_ok_inv hg
    subst hcl
    subst hcl0
    exact ⟨_, hr, rfl, hz1, hz2, rfl, rfl⟩
  · intro cl h
    obtain ⟨img0, cl1, hd, hcl1, hcl⟩ := classify_from_raw_ok_inv h
    obtain ⟨cl0, hr, hcl0⟩ := classify_ok_inv hcl1
    obtain ⟨output, cl00, _, _, _, _, hg, hcl00⟩ := run_ok_inv hr
    obtain ⟨_, _, _, _, _, _, _, hz1, _, _, _⟩ := get_tag_ok_inv hg
    subst hcl
    subst hcl0
    subst hcl00
    exact ⟨img0, _, hd, hcl1, rfl, hz1, rfl, rfl, rfl⟩
  · intro cl h
    obtain ⟨st, buf, cl1, hn, hraw, hcl⟩ := classify_from_url_ok_inv h
    obtain ⟨img0, cl2, hd, hcl2, hcl1⟩ := classify_from_raw_ok_inv hraw
    obtain ⟨cl0, hr, hcl0⟩ := classify_ok_inv hcl2
    obtain ⟨output, cl00, _, _, _, _, hg, hcl00⟩ := run_ok_inv hr
    subst hcl
    subst hcl1
    subst hcl0
    subst hcl00
    exact ⟨st, buf, _, hn, hraw, rfl, rfl, rfl, rfl, rfl, rfl, rfl⟩

/-- C4 witness: the concrete URL pipeline run with measured durations
1, 2, 3, 4 populates exactly the four timing fields. -/
theorem C4_witness :
    ∃ st buf cl0, modelNet "http://host/img" = some (st, some buf) ∧
      classify_from_raw modelLib modelClassifier buf 2 3 4 = .ok cl0 ∧
      (⟨"dog", F32.finite 1, 1, 2, 3, 4⟩ : Classification) = { cl0 with time_url_fetch := 1 } ∧
      (⟨"dog", F32.finite 1, 1, 2, 3, 4⟩ : Classification).tag = cl0.tag ∧
      (⟨"dog", F32.finite 1, 1, 2, 3, 4⟩ : Classification).probability = cl0.probability ∧
      (⟨"dog", F32.finite 1, 1, 2, 3, 4⟩ : Classification).time_url_fetch = 1 ∧
      (⟨"dog", F32.finite 1, 1, 2, 3, 4⟩ : Classification).time_image_load = 2 ∧
      (⟨"dog", F32.finite 1, 1, 2, 3, 4⟩ : Classification).time_image_resize = 3 ∧
      (⟨"dog", F32.finite 1, 1, 2, 3, 4⟩ : Classification).time_session_run = 4 :=
  (C4_timing_fields modelLib modelNet modelClassifier [] modelImage []
    "http://host/img" 1 2 3 4).2.2.2 ⟨"dog", F32.finite 1, 1, 2, 3, 4⟩
    (classify_from_url_mk_eval [F32.finite 0, F32.finite 1]
      [some "cat", some "dog"] "http://host/img" "dog" (F32.finite 1) 1 2 3 4
      get_tag_model_eval)

/-- C5 (amended): a successful `classify_from_raw` returns a tag that is a
line of the tags file and a probability that is an element of the model's
output vector; the probability therefore lies in `[0, 1]` whenever the
model's outputs do — the code itself never clamps or checks the range. -/
theorem C5_result_provenance (lib : ImageLib) (c : ImageClassifier) (data : List Nat)
    (dLoad dResize dRun : Int) (cl : Classification)
    (hok : classify_from_raw lib c data dLoad dResize dRun = .ok cl) :
    (∃ lines, c.tagsFile = some lines ∧ some cl.tag ∈ lines) ∧
    (∃ input output, c.sessionRun input = .ok output ∧ cl.probability ∈ output) ∧
    ((∀ input output, c.sessionRun input = .ok output →
        ∀ v ∈ output, ∃ q : ℚ, v = F32.finite q ∧ 0 ≤ q ∧ q ≤ 1) →
      ∃ q : ℚ, cl.probability = F32.finite q ∧ 0 ≤ q ∧ q ≤ 1) := by
  obtain ⟨img0, cl1, hd, hcl1, hcl⟩ := classify_from_raw_ok_inv hok
  obtain ⟨cl2, hr, hcl2⟩ := classify_ok_inv hcl1
  obtain ⟨output, cl3, _, _, _, hs, hg, hcl3⟩ := run_ok_inv hr
  obtain ⟨lines, best, htags, hmax, hl, hprob, hmem, _, _, _, _⟩ := get_tag_ok_inv hg
  subst hcl
  subst hcl2
  subst hcl3
  refine ⟨⟨lines, htags, List.get?_mem hl⟩,
    ⟨preprocess_tensor lib img0, output, hs, ?_⟩, ?_⟩
  · show cl3.probability ∈ output
    rw [hprob]
    exact hmem
  · intro hrange
    obtain ⟨q, hv, h0, h1⟩ := hrange _ _ hs best.2 hmem
    refine ⟨q, ?_, h0, h1⟩
    show cl3.probability = F32.finite q
    rw [hprob]
    exact hv

/-- C5 counterexample to the claim as stated: with a (mismatched) model
whose output vector is `[2.0]`, a perfectly valid image yields a
successful classification whose probability is 2, outside `[0, 1]` — the
code never enforces the range. -/
theorem C5_counterexample :
    classify_from_raw modelLib (mkClassifier [F32.finite 2] [some "cat"]) [5] 1 2 3
      = .ok ⟨"cat", F32.finite 2, 0, 1, 2, 3⟩ ∧
    ¬ ((F32.finite 2).val ≤ 1) := by
  constructor
  · exact classify_from_raw_mk_eval [F32.finite 2] [some "cat"] [5] (by decide)
      "cat" (F32.finite 2) 1 2 3 (by decide)
  · decide

/-- C5 witness: the concrete in-range pipeline through the amended
theorem. -/
theorem C5_witness :
    (∃ lines, modelClassifier.tagsFile = some lines ∧
      some (⟨"dog", F32.finite 1, 0, 2, 3, 4⟩ : Classification).tag ∈ lines) ∧
    (∃ input output, modelClassifier.sessionRun input = .ok output ∧
      (⟨"dog", F32.finite 1, 0, 2, 3, 4⟩ : Classification).probability ∈ output) ∧
    ((∀ input output, modelClassifier.sessionRun input = .ok output →
        ∀ v ∈ output, ∃ q : ℚ, v = F32.finite q ∧ 0 ≤ q ∧ q ≤ 1) →
      ∃ q : ℚ, (⟨"dog", F32.finite 1, 0, 2, 3, 4⟩ : Classification).probability
        = F32.finite q ∧ 0 ≤ q ∧ q ≤ 1) :=
  C5_result_provenance modelLib modelClassifier [5] 2 3 4
    ⟨"dog", F32.finite 1, 0, 2, 3, 4⟩
    (classify_from_raw_mk_eval [F32.finite 0, F32.finite 1]
      [some "cat", some "dog"] [5] (by decide) "dog" (F32.finite 1) 2 3 4
      get_tag_model_eval)
